import Mathlib

/-!
Verification of the configuration-persistence core of Claude-Code-Interceptor:
the name normalizer (`cci/utils/config_utils.py`), the model-discovery client
(`cci/utils/models_fetch.py`) and the configuration store (`cci/config.py`),
shallowly embedded as pure Lean functions over explicit state.
-/

namespace CCI

/-! ## Name normalizer (`cci/utils/config_utils.py`, `normalize_config_name`) -/

/-- Models the character class `[a-z0-9-]` of the regex
`re.sub(r'[^a-z0-9\-]', '', ...)`: lowercase ASCII letters, digits, dash. -/
def allowedChar (c : Char) : Bool :=
  (97 ≤ c.toNat && c.toNat ≤ 122) || (48 ≤ c.toNat && c.toNat ≤ 57) || c == '-'

/-- Drop leading dashes (the left half of Python `str.strip('-')`). -/
def dropLeadDashes (l : List Char) : List Char := l.dropWhile (· == '-')

/-- Drop trailing dashes (the right half of Python `str.strip('-')`). -/
def dropTrailDashes (l : List Char) : List Char :=
  (l.reverse.dropWhile (· == '-')).reverse

/-- Models Python `str.strip('-')`: remove all leading and trailing dashes. -/
def stripDashes (l : List Char) : List Char := dropTrailDashes (dropLeadDashes l)

/-- Models `re.sub(r'-+', '-', ...)`: collapse each maximal run of dashes to a
single dash. -/
def collapseDashes : List Char → List Char
  | [] => []
  | [c] => [c]
  | c :: d :: rest =>
    if c = '-' ∧ d = '-' then collapseDashes (d :: rest)
    else c :: collapseDashes (d :: rest)

/-- Models `str.lower()` (per character, basic-latin as in the data handled
by the tool) followed by `replace(' ', '-').replace('_', '-')`. -/
def lowerAndReplace (l : List Char) : List Char :=
  (l.map Char.toLower).map (fun c => if c == ' ' || c == '_' then '-' else c)

/-- `normalize_config_name` from `cci/utils/config_utils.py`: lowercase,
replace spaces and underscores with dashes, delete characters outside
`[a-z0-9-]`, strip leading/trailing dashes, then collapse dash runs
(the source strips before collapsing). -/
def normalize_config_name (s : String) : String :=
  ⟨collapseDashes (stripDashes ((lowerAndReplace s.data).filter allowedChar))⟩

/-- The reference normalizer in the order the specification states it:
lowercase; replace space and underscore with dash; delete characters outside
`[a-z0-9-]`; collapse runs of dashes; trim leading and trailing dashes. -/
def normalizeRef (s : String) : String :=
  ⟨stripDashes (collapseDashes ((lowerAndReplace s.data).filter allowedChar))⟩

/-- No two adjacent dashes anywhere in the list. -/
def noDoubleDash : List Char → Bool
  | [] => true
  | [_] => true
  | c :: d :: rest =>
    if c = '-' ∧ d = '-' then false else noDoubleDash (d :: rest)

/-! ## JSON values and the HTTP oracle -/

/-- A JSON value, the result of Python `json.load` / `response.json()`.
Numbers are modelled as integers (the repository only ever inspects
dictionaries, lists and strings). -/
inductive JVal where
  | null
  | bool (b : Bool)
  | num (n : Int)
  | str (s : String)
  | arr (xs : List JVal)
  | obj (fields : List (String × JVal))
deriving Repr

/-- Association-list lookup, modelling Python dict indexing / membership
(JSON object keys are unique, insertion order preserved). -/
def dictLookup {α : Type} : List (String × α) → String → Option α
  | [], _ => none
  | (k2, v) :: rest, k => if k2 = k then some v else dictLookup rest k

/-- Python dict assignment `d[k] = v`: update the value in place if the key
exists, otherwise append the new entry at the end. -/
def dictInsert {α : Type} : List (String × α) → String → α → List (String × α)
  | [], k, v => [(k, v)]
  | (k2, v2) :: rest, k, v =>
    if k2 = k then (k, v) :: rest else (k2, v2) :: dictInsert rest k v

/-- Python dict deletion `del d[k]`: remove the entry with the given key. -/
def dictErase {α : Type} (l : List (String × α)) (k : String) : List (String × α) :=
  l.filter (fun kv => kv.1 != k)

/-- Python truthiness of a JSON value (`if not models_data: ...`):
`None`, `False`, `0`, `""`, `[]` and `{}` are falsy. -/
def JVal.truthy : JVal → Bool
  | .null => false
  | .bool b => b
  | .num n => !(n == 0)
  | .str s => !(s == "")
  | .arr xs => !xs.isEmpty
  | .obj fs => !fs.isEmpty

/-- Truthiness of `Optional[Dict]`: `None` is falsy. -/
def jtruthy : Option JVal → Bool
  | none => false
  | some j => j.truthy

/-- An HTTP GET response as the repository observes it: the status code and
the result of `response.json()` (`none` when the body is not valid JSON). -/
structure HttpResponse where
  status : Nat
  body : Option JVal
deriving Repr

/-- The network, as a deterministic oracle: a GET of a URL carrying an
optional `Authorization` header value either fails in transport
(`none`, a `requests.RequestException`) or yields a response. -/
def HttpWorld : Type := String → Option String → Option HttpResponse

/-! ## URL handling (`cci/utils/models_fetch.py`) -/

/-- Models Python `str.rstrip('/')`. -/
def rstripSlashL (l : List Char) : List Char :=
  (l.reverse.dropWhile (· == '/')).reverse

/-- Split a URL character list at the first `://`, returning the scheme part
and the remainder, or `none` when no `://` occurs.  Models the scheme
detection of `urllib.parse.urlparse` for the URLs the tool handles
(either `scheme://...` or a plain path with no colon). -/
def splitSchemeSep : List Char → Option (List Char × List Char)
  | [] => none
  | c :: rest =>
    if c = ':' ∧ rest.take 2 = ['/', '/'] then some ([], rest.drop 2)
    else (splitSchemeSep rest).map (fun p => (c :: p.1, p.2))

/-- Models `urllib.parse.urlparse` restricted to URLs without query, params
or fragment: splits into the non-path part (`scheme://netloc`) and the path.
A string with no `://` is all path, as `urlparse` does for colon-free input. -/
def urlSplit (l : List Char) : List Char × List Char :=
  match splitSchemeSep l with
  | none => ([], l)
  | some (scheme, rest) =>
    (scheme ++ ':' :: '/' :: '/' :: rest.takeWhile (· != '/'),
     rest.dropWhile (· != '/'))

/-- The `parsed.path` component of `urlparse`. -/
def urlPathL (l : List Char) : List Char := (urlSplit l).2

/-- Models Python `path.endswith('/v1')`. -/
def endsV1 (l : List Char) : Bool :=
  match l.reverse with
  | c1 :: c2 :: c3 :: _ => c1 == '1' && c2 == 'v' && c3 == '/'
  | _ => false

/-- `normalize_base_url` from `cci/utils/models_fetch.py`: `rstrip('/')`,
then, if `urlparse(base_url).path` ends with `/v1`, rebuild the URL with the
path's last three characters removed (`_replace(path=path[:-3]).geturl()`,
which for query-free URLs is the non-path part plus the shortened path) and
`rstrip('/')` again. -/
def normalize_base_url (s : String) : String :=
  let l := rstripSlashL s.data
  let parsed := urlSplit l
  if endsV1 parsed.2 then
    ⟨rstripSlashL (parsed.1 ++ parsed.2.take (parsed.2.length - 3))⟩
  else ⟨l⟩

/-- The base-URL normalization as the specification words it, at the level of
the whole string: strip trailing slashes; if the result ends in `/v1`, strip
that segment and any slashes this exposes. -/
def normalizeSpec (s : String) : String :=
  let l := rstripSlashL s.data
  if endsV1 l then ⟨rstripSlashL (l.take (l.length - 3))⟩ else ⟨l⟩

/-- Models Python `str.lstrip('/')`. -/
def lstripSlash (s : String) : String := ⟨s.data.dropWhile (· == '/')⟩

/-- Models `urllib.parse.urljoin` restricted to how the source uses it: the
base is absolute and ends with `/`, the reference is relative with no leading
slash, so the join is concatenation. -/
def urljoin (base rel : String) : String := base ++ rel

/-! ## Model discovery (`cci/utils/models_fetch.py`) -/

/-- One probe of the discovery loop body: GET the candidate endpoint with a
10-second timeout and no headers; it is the discovered endpoint exactly when
the status code is 200, and a `requests.RequestException` falls through. -/
def tryEndpoint (w : HttpWorld) (endpoint_url : String) : Option String :=
  match w endpoint_url none with
  | some r => if r.status == 200 then some endpoint_url else none
  | none => none

/-- `discover_models_endpoint`: normalize the base URL, then try
`/v1/models` and `/models` in that order, returning the first endpoint
answering with status 200, else `None`. -/
def discover_models_endpoint (w : HttpWorld) (base_url : String) : Option String :=
  let normalized_base := normalize_base_url base_url
  match tryEndpoint w (urljoin (normalized_base ++ "/") (lstripSlash "/v1/models")) with
  | some u => some u
  | none => tryEndpoint w (urljoin (normalized_base ++ "/") (lstripSlash "/models"))

/-- `fetch_models`: discover the endpoint, GET it (no headers), raise for
4xx/5xx (caught), return the parsed JSON body; every failure is `None`.
Note the source takes no API key and sends no `Authorization` header. -/
def fetch_models (w : HttpWorld) (base_url : String) : Option JVal :=
  match discover_models_endpoint w base_url with
  | none => none
  | some ep =>
    match w ep none with
    | none => none
    | some r => if 400 ≤ r.status ∧ r.status < 600 then none else r.body

/-- Modelled from the spec: `fetchModels(baseUrl, apiKey?)` as specified —
missing from the source, whose `fetch_models` takes only the base URL even
though `tui.py` calls it with an API key — sends a supplied non-empty key as
a bearer credential in the `Authorization` header of the models GET. -/
def fetch_models_spec (w : HttpWorld) (base_url api_key : String) : Option JVal :=
  match discover_models_endpoint w base_url with
  | none => none
  | some ep =>
    match w ep (if api_key = "" then none else some ("Bearer " ++ api_key)) with
    | none => none
    | some r => if 400 ≤ r.status ∧ r.status < 600 then none else r.body

/-! ## Model-name extraction (`list_models`) -/

/-- Python equality test of a JSON value against a string literal, as used by
`'data' in some_list` (only equal strings compare equal). -/
def jvalEqStr (j : JVal) (s : String) : Bool :=
  match j with
  | .str t => t == s
  | _ => false

/-- Substring test on character lists, modelling Python `'pat' in s`. -/
def substrInL (pat : List Char) : List Char → Bool
  | [] => pat.isEmpty
  | c :: rest => pat.isPrefixOf (c :: rest) || substrInL pat rest

/-- Models Python `pat in s` for strings. -/
def substrIn (pat s : String) : Bool := substrInL pat.data s.data

/-- One item of an OpenAI-style `data` list: a dict with an `id` field
contributes its id (the repository's data carries string ids). -/
def modelIdOfEntry : JVal → Option String
  | .obj fs =>
    match dictLookup fs "id" with
    | some (.str s) => some s
    | _ => none
  | _ => none

/-- One item of a `models` list or a bare top-level list: a dict with an
`id`, or a bare string. -/
def modelIdOrStr : JVal → Option String
  | .obj fs =>
    match dictLookup fs "id" with
    | some (.str s) => some s
    | _ => none
  | .str s => some s
  | _ => none

/-- The shape dispatch of `list_models` on a truthy parsed document.
`'data' in md` on a dict is key membership; on a list it is element
membership (where indexing `md['data']` then raises `TypeError`, modelled as
`.error`); on a string it is a substring test (indexing again raises); on a
number or boolean the `in` operator itself raises `TypeError`. -/
def extractModelNames (md : JVal) : Except Unit (List String) :=
  match md with
  | .obj fs =>
    match dictLookup fs "data" with
    | some (.arr xs) => .ok (xs.filterMap modelIdOfEntry)
    | _ =>
      match dictLookup fs "models" with
      | some (.arr xs) => .ok (xs.filterMap modelIdOrStr)
      | _ => .ok []
  | .arr xs =>
    if xs.any (jvalEqStr · "data") then .error ()
    else if xs.any (jvalEqStr · "models") then .error ()
    else .ok (xs.filterMap modelIdOrStr)
  | .str s =>
    if substrIn "data" s then .error ()
    else if substrIn "models" s then .error ()
    else .ok []
  | _ => .error ()

/-- `list_models`: fetch the document; a falsy result (None, `{}`, `[]`, ...)
yields `[]`; otherwise extract the model names, `.error` standing for a
Python exception escaping `list_models` (it has no handler of its own). -/
def list_models (w : HttpWorld) (base_url : String) : Except Unit (List String) :=
  match fetch_models w base_url with
  | none => .ok []
  | some md => if md.truthy then extractModelNames md else .ok []

/-! ## The configuration store (`cci/config.py`) -/

/-- A provider entry of the persisted document. -/
structure Provider where
  base_url : String
  models : List String
  api_key : String
  api_key_type : String
deriving Repr, DecidableEq

/-- The scratch model selection (`models` top-level key). -/
structure ModelSel where
  haiku : Option String
  sonnet : Option String
  opus : Option String
deriving Repr, DecidableEq

/-- One saved configuration: the pinned provider name (which may dangle) and
a copy of the model selection. -/
structure SavedConfig where
  provider : String
  models : ModelSel
deriving Repr, DecidableEq

/-- The persisted document held in `ConfigManager.config`.  The two mappings
are insertion-ordered with unique keys, as Python dicts are. -/
structure Document where
  providers : List (String × Provider)
  models : ModelSel
  configs : List (String × SavedConfig)
  default_config : Option String
deriving Repr, DecidableEq

/-- `ConfigManager.add_provider`: fetch the models document, list the model
names when it is truthy, and insert/overwrite the provider entry, returning
`True`; any exception inside the `try` (only `list_models` can raise in this
model) yields `False` with the document untouched. -/
def add_provider (w : HttpWorld) (c : Document)
    (name base_url api_key api_key_type : String) : Bool × Document :=
  let models_data := fetch_models w base_url
  let ml : Except Unit (List String) :=
    if jtruthy models_data then list_models w base_url else .ok []
  match ml with
  | .error _ => (false, c)
  | .ok model_list =>
    let p : Provider :=
      { base_url := base_url, models := model_list,
        api_key := api_key, api_key_type := api_key_type }
    (true, { c with providers := dictInsert c.providers name p })

/-- `ConfigManager.get_configs_for_provider`: the config names whose
`provider` field equals the argument, in document order. -/
def get_configs_for_provider (c : Document) (provider_name : String) : List String :=
  (c.configs.filter (fun kv => kv.2.provider == provider_name)).map Prod.fst

/-- `ConfigManager.set_default_if_just_one_config`: when exactly one saved
configuration exists, make it the default. -/
def set_default_if_just_one_config (c : Document) : Document :=
  if c.configs.length = 1 then
    match c.configs.head? with
    | some kv => { c with default_config := some kv.1 }
    | none => c
  else c

/-- The body of `remove_provider`'s per-config loop: if the config name is
still present, delete it and null the default pointer when it named that
config. -/
def removeConfigsStep (c : Document) (config_name : String) : Document :=
  if (dictLookup c.configs config_name).isSome then
    let c2 : Document := { c with configs := dictErase c.configs config_name }
    if c2.default_config = some config_name then
      { c2 with default_config := none }
    else c2
  else c

/-- `ConfigManager.remove_provider`: when the provider exists, delete every
config referencing it (resetting the default as it goes), delete the
provider, then `set_default_if_just_one_config`.  No-op when absent. -/
def remove_provider (c : Document) (name : String) : Document :=
  if (dictLookup c.providers name).isSome then
    let configs_to_remove := get_configs_for_provider c name
    let c2 := configs_to_remove.foldl removeConfigsStep c
    let c3 : Document := { c2 with providers := dictErase c2.providers name }
    set_default_if_just_one_config c3
  else c

/-- `ConfigManager.check_and_update_default_config`: null out a dangling
default pointer, then report whether a default is set. -/
def check_and_update_default_config (c : Document) : Bool × Document :=
  let c2 : Document :=
    match c.default_config with
    | some d =>
      if (dictLookup c.configs d).isSome then c
      else { c with default_config := none }
    | none => c
  (c2.default_config.isSome, c2)

/-- The record returned by a successful `load_config_by_name`. -/
structure LoadedConfig where
  base_url : String
  models : ModelSel
  api_key : String
  api_key_type : String
deriving Repr, DecidableEq

/-- `ConfigManager.load_config_by_name`: `none` models the empty dict the
source returns when the name is absent or its provider entry is missing;
otherwise base URL, API key and key type come from the provider entry and
the model selection from the saved config. -/
def load_config_by_name (c : Document) (name : String) : Option LoadedConfig :=
  match dictLookup c.configs name with
  | none => none
  | some sc =>
    match dictLookup c.providers sc.provider with
    | none => none
    | some p =>
      some { base_url := p.base_url, models := sc.models,
             api_key := p.api_key, api_key_type := p.api_key_type }

/-! ## Loading the persisted file (`ConfigManager._load_config`) -/

/-- The observable state of the persisted file: absent; unreadable (`open`
or the read raises `IOError`); readable but its bytes are not valid UTF-8
(`json.load` raises `UnicodeDecodeError`); decodable text that is not valid
JSON (`json.load` raises `json.JSONDecodeError`); or readable with a parsed
JSON value. -/
inductive FileState where
  | absent
  | unreadable
  | undecodable
  | invalidJson
  | content (j : JVal)

/-- The default document `_load_config` builds when nothing usable is on
disk. -/
def default_document : JVal :=
  .obj [("providers", .obj []),
        ("models", .obj [("haiku", .null), ("sonnet", .null), ("opus", .null)]),
        ("configs", .obj []),
        ("default_config", .null)]

/-- `ConfigManager._load_config`: return the parsed file contents when the
file exists and parses; an absent file, an `IOError` or a JSON parse error
(the latter two suppressed by `contextlib.suppress(json.JSONDecodeError,
IOError)`) yield the default document.  A readable file whose bytes are not
valid UTF-8 makes `json.load` raise `UnicodeDecodeError`, which is a
`ValueError` and not an `OSError`, so the suppression does not catch it and
the exception propagates out of `_load_config` (`.error` here). -/
def load_config_file : FileState → Except Unit JVal
  | .absent => .ok default_document
  | .unreadable => .ok default_document
  | .undecodable => .error ()
  | .invalidJson => .ok default_document
  | .content j => .ok j

/-! ## Derived predicates and concrete instances used by the theorems -/

/-- Whether a GET outcome is a response with status exactly 200 (the only
outcome `discover_models_endpoint` accepts). -/
def status200 (r : Option HttpResponse) : Bool :=
  match r with
  | some resp => resp.status == 200
  | none => false

/-- Invariant I2 of the data model: a non-null `default_config` names an
existing saved configuration. -/
def defaultPointerValid (c : Document) : Bool :=
  match c.default_config with
  | some d => (dictLookup c.configs d).isSome
  | none => true

/-- A network where every request fails in transport. -/
def wNoNet : HttpWorld := fun _ _ => none

/-- A provider whose `/v1/models` endpoint answers 200 with an OpenAI-style
document carrying an empty `data` list: reachable, zero models. -/
def wEmptyData : HttpWorld := fun u _ =>
  if u = "http://h/v1/models" then some ⟨200, some (.obj [("data", .arr [])])⟩
  else none

/-- A provider whose `/v1/models` endpoint answers 204 No Content (a 2xx
success status that is not 200); the fallback path is unreachable. -/
def w204 : HttpWorld := fun u _ =>
  if u = "http://h/v1/models" then some ⟨204, some (.obj [])⟩ else none

/-- A provider whose models listing depends on the `Authorization` header:
with the bearer credential it lists one model, without it the list is empty. -/
def wBearer : HttpWorld := fun u a =>
  if u = "http://api.test/v1/models" then
    if a = some "Bearer secret" then
      some ⟨200, some (.obj [("data", .arr [.obj [("id", .str "m1")]])])⟩
    else some ⟨200, some (.obj [("data", .arr [])])⟩
  else none

/-- The document with empty defaults, as a typed store state. -/
def emptyDoc : Document :=
  { providers := [], models := ⟨none, none, none⟩,
    configs := [], default_config := none }

/-- A sample provider entry. -/
def provX : Provider := ⟨"http://x", ["m1"], "", "none"⟩

/-- A sample model selection. -/
def selX : ModelSel := ⟨some "m1", none, none⟩

/-- A store with two providers, one saved config on each, and the default
pointing at the config of provider `p`. -/
def doc2 : Document :=
  { providers := [("p", provX), ("q", provX)], models := selX,
    configs := [("a", ⟨"p", selX⟩), ("b", ⟨"q", selX⟩)],
    default_config := some "a" }

/-- A store holding one saved config whose provider entry has been removed. -/
def docDangling : Document :=
  { providers := [], models := selX,
    configs := [("c1", ⟨"gone", selX⟩)], default_config := some "c1" }

/-! ## Helper lemmas -/

theorem dropWhile_head_false {p : Char → Bool} {l : List Char} {a : Char}
    (h : l.head? = some a) (hp : p a = false) : l.dropWhile p = l := by
  cases l with
  | nil => rfl
  | cons b t =>
    have hb : a = b := by simpa using h.symm
    subst hb
    simp [List.dropWhile_cons, hp]

theorem collapseDashes_cons_cons (a b : Char) (r : List Char) :
    collapseDashes (a :: b :: r) =
      if a = '-' ∧ b = '-' then collapseDashes (b :: r)
      else a :: collapseDashes (b :: r) := rfl

theorem collapseDashes_head (l : List Char) :
    (collapseDashes l).head? = l.head? := by
  induction l with
  | nil => rfl
  | cons c t ih =>
    cases t with
    | nil => rfl
    | cons d rest =>
      rw [collapseDashes_cons_cons]
      by_cases h : c = '-' ∧ d = '-'
      · rw [if_pos h, ih]
        simp [h.1, h.2]
      · rw [if_neg h]
        rfl

theorem collapseDashes_snoc (y : List Char) (c : Char) :
    collapseDashes (y ++ [c]) =
      if y.getLast? = some '-' ∧ c = '-' then collapseDashes y
      else collapseDashes y ++ [c] := by
  induction y with
  | nil => simp [collapseDashes]
  | cons a t ih =>
    cases t with
    | nil =>
      simp only [List.cons_append, List.nil_append, collapseDashes_cons_cons]
      by_cases h : a = '-' ∧ c = '-'
      · obtain ⟨h1, h2⟩ := h
        subst h1; subst h2
        rw [if_pos ⟨rfl, rfl⟩, if_pos (by simp)]
      · rw [if_neg h, if_neg (by simpa using h)]
        rfl
    | cons b r =>
      simp only [List.cons_append, collapseDashes_cons_cons]
      have ih2 : collapseDashes (b :: (r ++ [c])) =
          if (b :: r).getLast? = some '-' ∧ c = '-' then collapseDashes (b :: r)
          else collapseDashes (b :: r) ++ [c] := by
        simpa only [List.cons_append] using ih
      rw [ih2, List.getLast?_cons_cons]
      by_cases h : a = '-' ∧ b = '-'
      · rw [if_pos h]
        by_cases h2 : (b :: r).getLast? = some '-' ∧ c = '-'
        · rw [if_pos h2, if_pos h2, if_pos h]
        · rw [if_neg h2, if_neg h2, if_pos h]
      · rw [if_neg h]
        by_cases h2 : (b :: r).getLast? = some '-' ∧ c = '-'
        · rw [if_pos h2, if_pos h2, if_neg h]
        · rw [if_neg h2, if_neg h2, if_neg h]
          simp

theorem collapseDashes_reverse (l : List Char) :
    (collapseDashes l).reverse = collapseDashes l.reverse := by
  induction l with
  | nil => rfl
  | cons c t ih =>
    cases t with
    | nil => rfl
    | cons d rest =>
      rw [collapseDashes_cons_cons]
      have hrev : (c :: d :: rest).reverse = ((d :: rest).reverse) ++ [c] := by
        simp
      by_cases h : c = '-' ∧ d = '-'
      · rw [if_pos h, ih, hrev, collapseDashes_snoc]
        have hg : ((d :: rest).reverse).getLast? = some '-' := by
          rw [List.getLast?_reverse]
          simp [h.2]
        rw [if_pos ⟨hg, h.1⟩]
      · rw [if_neg h, List.reverse_cons, ih, hrev, collapseDashes_snoc]
        have hg : ¬ (((d :: rest).reverse).getLast? = some '-' ∧ c = '-') := by
          rw [List.getLast?_reverse]
          simp only [List.head?_cons]
          intro hcon
          exact h ⟨hcon.2, by injection hcon.1⟩
        rw [if_neg hg]

theorem collapseDashes_dropWhile (l : List Char) :
    collapseDashes (l.dropWhile (· == '-')) =
      (collapseDashes l).dropWhile (· == '-') := by
  induction l with
  | nil => rfl
  | cons c t ih =>
    cases t with
    | nil =>
      by_cases hc : c = '-'
      · subst hc
        rfl
      · have hcb : (c == '-') = false := by simpa using hc
        simp [List.dropWhile_cons, hcb, collapseDashes]
    | cons d rest =>
      by_cases hc : c = '-'
      · subst hc
        by_cases hd : d = '-'
        · subst hd
          rw [collapseDashes_cons_cons, if_pos ⟨rfl, rfl⟩]
          rw [show List.dropWhile (· == '-') ('-' :: '-' :: rest) =
                List.dropWhile (· == '-') ('-' :: rest) from by
            simp [List.dropWhile_cons]]
          exact ih
        · have hdb : (d == '-') = false := by simpa using hd
          rw [collapseDashes_cons_cons, if_neg (fun hh => hd hh.2)]
          rw [show List.dropWhile (· == '-') ('-' :: d :: rest) = d :: rest from by
            simp [List.dropWhile_cons, hdb]]
          rw [show List.dropWhile (· == '-') ('-' :: collapseDashes (d :: rest)) =
                List.dropWhile (· == '-') (collapseDashes (d :: rest)) from by
            simp [List.dropWhile_cons]]
          have hh : (collapseDashes (d :: rest)).head? = some d := by
            rw [collapseDashes_head]
            rfl
          rw [dropWhile_head_false hh hdb]
      · have hcb : (c == '-') = false := by simpa using hc
        rw [show List.dropWhile (· == '-') (c :: d :: rest) = c :: d :: rest from by
          simp [List.dropWhile_cons, hcb]]
        rw [collapseDashes_cons_cons, if_neg (fun hh => hc hh.1)]
        rw [show List.dropWhile (· == '-') (c :: collapseDashes (d :: rest)) =
              c :: collapseDashes (d :: rest) from by
          simp [List.dropWhile_cons, hcb]]

theorem collapseDashes_dropTrail (l : List Char) :
    collapseDashes (dropTrailDashes l) = dropTrailDashes (collapseDashes l) := by
  unfold dropTrailDashes
  calc collapseDashes ((l.reverse.dropWhile (· == '-')).reverse)
      = (collapseDashes (l.reverse.dropWhile (· == '-'))).reverse :=
        (collapseDashes_reverse _).symm
    _ = ((collapseDashes l.reverse).dropWhile (· == '-')).reverse := by
        rw [collapseDashes_dropWhile]
    _ = (((collapseDashes l).reverse).dropWhile (· == '-')).reverse := by
        rw [collapseDashes_reverse]

theorem collapse_strip_comm (l : List Char) :
    collapseDashes (stripDashes l) = stripDashes (collapseDashes l) := by
  unfold stripDashes dropLeadDashes
  rw [collapseDashes_dropTrail, collapseDashes_dropWhile]

theorem noDoubleDash_cons_cons (c d : Char) (r : List Char) :
    noDoubleDash (c :: d :: r) =
      if c = '-' ∧ d = '-' then false else noDoubleDash (d :: r) := rfl

theorem noDoubleDash_collapse (l : List Char) :
    noDoubleDash (collapseDashes l) = true := by
  induction l with
  | nil => rfl
  | cons c t ih =>
    cases t with
    | nil => rfl
    | cons d rest =>
      rw [collapseDashes_cons_cons]
      by_cases h : c = '-' ∧ d = '-'
      · rw [if_pos h]
        exact ih
      · rw [if_neg h]
        cases hx : collapseDashes (d :: rest) with
        | nil => rfl
        | cons e y =>
          have he : e = d := by
            have hh := collapseDashes_head (d :: rest)
            rw [hx] at hh
            simpa using hh
          subst he
          rw [noDoubleDash_cons_cons, if_neg h]
          rw [hx] at ih
          exact ih

theorem collapse_eq_self_of_noDoubleDash :
    ∀ {l : List Char}, noDoubleDash l = true → collapseDashes l = l := by
  intro l
  induction l with
  | nil => intro _; rfl
  | cons c t ih =>
    cases t with
    | nil => intro _; rfl
    | cons d rest =>
      intro h
      rw [noDoubleDash_cons_cons] at h
      by_cases hcd : c = '-' ∧ d = '-'
      · rw [if_pos hcd] at h
        exact absurd h (by simp)
      · rw [if_neg hcd] at h
        rw [collapseDashes_cons_cons, if_neg hcd, ih h]

theorem mem_collapseDashes {a : Char} :
    ∀ {l : List Char}, a ∈ collapseDashes l → a ∈ l := by
  intro l
  induction l with
  | nil => intro h; exact h
  | cons c t ih =>
    cases t with
    | nil => intro h; exact h
    | cons d rest =>
      rw [collapseDashes_cons_cons]
      by_cases h : c = '-' ∧ d = '-'
      · rw [if_pos h]
        intro hm
        exact List.mem_cons_of_mem _ (ih hm)
      · rw [if_neg h]
        intro hm
        rcases List.mem_cons.mp hm with h1 | h2
        · exact List.mem_cons.mpr (Or.inl h1)
        · exact List.mem_cons_of_mem _ (ih h2)

theorem collapseDashes_getLast (l : List Char) :
    (collapseDashes l).getLast? = l.getLast? := by
  rw [List.getLast?_eq_head?_reverse, collapseDashes_reverse, collapseDashes_head,
    ← List.getLast?_eq_head?_reverse]

theorem dropWhile_head_prop {p : Char → Bool} :
    ∀ {l : List Char} {a : Char}, (l.dropWhile p).head? = some a → p a = false := by
  intro l
  induction l with
  | nil =>
    intro a h
    exact absurd h (by simp)
  | cons c t ih =>
    intro a h
    rw [List.dropWhile_cons] at h
    by_cases hc : p c = true
    · rw [if_pos hc] at h
      exact ih h
    · rw [if_neg hc] at h
      have hca : c = a := by simpa using h
      subst hca
      simpa using hc

theorem dropTrail_head_of {y : List Char} {a : Char}
    (h : (dropTrailDashes y).head? = some a) : y.head? = some a := by
  cases y with
  | nil => exact absurd h (by simp [dropTrailDashes])
  | cons c t =>
    unfold dropTrailDashes at h
    rw [show (c :: t).reverse = t.reverse ++ [c] from by simp] at h
    rw [List.dropWhile_append] at h
    by_cases he : (t.reverse.dropWhile (· == '-')).isEmpty = true
    · rw [if_pos he] at h
      by_cases hc : (c == '-') = true
      · rw [show List.dropWhile (· == '-') [c] = [] from by
          simp [List.dropWhile_cons, hc]] at h
        exact absurd h (by simp)
      · rw [show List.dropWhile (· == '-') [c] = [c] from by
          simp only [List.dropWhile_cons, if_neg hc]] at h
        simp only [List.reverse_cons, List.reverse_nil, List.nil_append,
          List.head?_cons] at h
        simpa using h
    · rw [if_neg he] at h
      rw [List.reverse_append] at h
      simp only [List.reverse_cons, List.reverse_nil, List.nil_append,
        List.cons_append, List.head?_cons] at h
      simpa using h

theorem dropLead_eq_self {l : List Char}
    (h : ∀ a, l.head? = some a → (a == '-') = false) : dropLeadDashes l = l := by
  cases l with
  | nil => rfl
  | cons c t =>
    unfold dropLeadDashes
    rw [List.dropWhile_cons, if_neg]
    simp [h c rfl]

theorem dropTrail_eq_self {l : List Char}
    (h : ∀ a, l.getLast? = some a → (a == '-') = false) : dropTrailDashes l = l := by
  have h2 : dropLeadDashes l.reverse = l.reverse :=
    dropLead_eq_self (fun a ha => h a (by rwa [List.head?_reverse] at ha))
  unfold dropTrailDashes
  unfold dropLeadDashes at h2
  rw [h2, List.reverse_reverse]

theorem stripDashes_mem {a : Char} {l : List Char} (h : a ∈ stripDashes l) : a ∈ l := by
  unfold stripDashes dropTrailDashes at h
  have h1 : a ∈ (dropLeadDashes l).reverse.dropWhile (· == '-') := List.mem_reverse.mp h
  have h2 : a ∈ (dropLeadDashes l).reverse := (List.dropWhile_sublist _).subset h1
  have h3 : a ∈ dropLeadDashes l := List.mem_reverse.mp h2
  unfold dropLeadDashes at h3
  exact (List.dropWhile_sublist _).subset h3

theorem stripDashes_head_prop {l : List Char} {a : Char}
    (h : (stripDashes l).head? = some a) : (a == '-') = false := by
  unfold stripDashes at h
  have h2 := dropTrail_head_of h
  unfold dropLeadDashes at h2
  exact @dropWhile_head_prop (fun x => x == '-') l a h2

theorem stripDashes_getLast_prop {l : List Char} {a : Char}
    (h : (stripDashes l).getLast? = some a) : (a == '-') = false := by
  unfold stripDashes dropTrailDashes at h
  rw [List.getLast?_eq_head?_reverse, List.reverse_reverse] at h
  exact @dropWhile_head_prop (fun x => x == '-') _ a h

theorem mapIdOfFixed {f : Char → Char} :
    ∀ {l : List Char}, (∀ c ∈ l, f c = c) → l.map f = l := by
  intro l
  induction l with
  | nil => intro _; rfl
  | cons c t ih =>
    intro h
    rw [List.map_cons, h c (List.mem_cons_self c t),
      ih (fun x hx => h x (List.mem_cons_of_mem c hx))]

theorem allowed_toLower {c : Char} (h : allowedChar c = true) : c.toLower = c := by
  unfold allowedChar at h
  simp only [Bool.or_eq_true, Bool.and_eq_true, decide_eq_true_eq, beq_iff_eq] at h
  rcases h with (h | h) | h
  · simp only [Char.toLower]
    rw [if_neg (by omega)]
  · simp only [Char.toLower]
    rw [if_neg (by omega)]
  · subst h
    decide

theorem allowed_replace {c : Char} (h : allowedChar c = true) :
    (if c == ' ' || c == '_' then '-' else c) = c := by
  unfold allowedChar at h
  simp only [Bool.or_eq_true, Bool.and_eq_true, decide_eq_true_eq, beq_iff_eq] at h
  have hcond : ¬ ((c == ' ' || c == '_') = true) := by
    intro hcon
    simp only [Bool.or_eq_true, beq_iff_eq] at hcon
    rcases hcon with h1 | h1 <;> subst h1 <;> exact absurd h (by decide)
  rw [if_neg hcond]

theorem dictLookup_cons {α : Type} (k : String) (v : α) (t : List (String × α))
    (m : String) :
    dictLookup ((k, v) :: t) m = if k = m then some v else dictLookup t m := rfl

theorem dictLookup_erase_ne {α : Type} (l : List (String × α)) {m n : String}
    (hmn : m ≠ n) : dictLookup (dictErase l n) m = dictLookup l m := by
  induction l with
  | nil => rfl
  | cons kv t ih =>
    obtain ⟨k, v⟩ := kv
    unfold dictErase at ih ⊢
    rw [List.filter_cons]
    by_cases hk : k = n
    · rw [if_neg (by simp [hk])]
      rw [ih, dictLookup_cons, if_neg (fun he => hmn (he.symm.trans hk))]
    · rw [if_pos (by simp [hk])]
      rw [dictLookup_cons, dictLookup_cons]
      by_cases hkm : k = m
      · rw [if_pos hkm, if_pos hkm]
      · rw [if_neg hkm, if_neg hkm, ih]

theorem dictLookup_isSome_of_mem_keys {α : Type} :
    ∀ {l : List (String × α)} {k : String}, k ∈ l.map Prod.fst →
      (dictLookup l k).isSome = true := by
  intro l
  induction l with
  | nil => intro k h; exact absurd h (by simp)
  | cons kv t ih =>
    intro k h
    obtain ⟨k2, v⟩ := kv
    rw [dictLookup_cons]
    by_cases hk : k2 = k
    · rw [if_pos hk]
      rfl
    · rw [if_neg hk]
      rcases List.mem_cons.mp h with h1 | h2
      · exact absurd h1.symm hk
      · exact ih h2

theorem nodup_keys_unique {α : Type} :
    ∀ {l : List (String × α)} {kv kv2 : String × α},
      (l.map Prod.fst).Nodup → kv ∈ l → kv2 ∈ l → kv.1 = kv2.1 → kv = kv2 := by
  intro l
  induction l with
  | nil => intro kv kv2 _ h1; exact absurd h1 (by simp)
  | cons a t ih =>
    intro kv kv2 hnd h1 h2 heq
    rw [List.map_cons, List.nodup_cons] at hnd
    rcases List.mem_cons.mp h1 with e1 | m1 <;> rcases List.mem_cons.mp h2 with e2 | m2
    · rw [e1, e2]
    · exfalso
      apply hnd.1
      rw [← e1, heq]
      exact List.mem_map_of_mem Prod.fst m2
    · exfalso
      apply hnd.1
      rw [← e2, ← heq]
      exact List.mem_map_of_mem Prod.fst m1
    · exact ih hnd.2 m1 m2 heq

theorem set_default_if_just_one_config_configs (c : Document) :
    (set_default_if_just_one_config c).configs = c.configs := by
  unfold set_default_if_just_one_config
  split
  · split <;> rfl
  · rfl

theorem set_default_if_just_one_config_providers (c : Document) :
    (set_default_if_just_one_config c).providers = c.providers := by
  unfold set_default_if_just_one_config
  split
  · split <;> rfl
  · rfl

theorem set_default_if_just_one_config_models (c : Document) :
    (set_default_if_just_one_config c).models = c.models := by
  unfold set_default_if_just_one_config
  split
  · split <;> rfl
  · rfl

theorem set_default_if_just_one_config_default (c : Document) :
    (set_default_if_just_one_config c).default_config =
      if c.configs.length = 1 then c.configs.head?.map Prod.fst
      else c.default_config := by
  unfold set_default_if_just_one_config
  by_cases h : c.configs.length = 1
  · rw [if_pos h, if_pos h]
    cases hh : c.configs.head? with
    | none =>
      rw [List.head?_eq_none_iff] at hh
      rw [hh] at h
      simp at h
    | some kv => rfl
  · rw [if_neg h, if_neg h]

theorem removeConfigsStep_eq (c : Document) (n : String)
    (hn : (dictLookup c.configs n).isSome = true) :
    removeConfigsStep c n =
      { c with configs := dictErase c.configs n,
               default_config :=
                 if c.default_config = some n then none else c.default_config } := by
  unfold removeConfigsStep
  rw [if_pos hn]
  by_cases hd : c.default_config = some n
  · rw [if_pos (show ({ c with configs := dictErase c.configs n } : Document).default_config
          = some n from hd), if_pos hd]
  · rw [if_neg (show ¬ ({ c with configs := dictErase c.configs n } : Document).default_config
          = some n from hd), if_neg hd]

theorem foldl_removeConfigs :
    ∀ (ns : List String) (c : Document), ns.Nodup →
    (∀ n ∈ ns, (dictLookup c.configs n).isSome = true) →
    (ns.foldl removeConfigsStep c).configs
        = c.configs.filter (fun kv => decide (kv.1 ∉ ns))
    ∧ (ns.foldl removeConfigsStep c).providers = c.providers
    ∧ (ns.foldl removeConfigsStep c).models = c.models
    ∧ (ns.foldl removeConfigsStep c).default_config
        = (match c.default_config with
           | some d => if d ∈ ns then none else some d
           | none => none) := by
  intro ns
  induction ns with
  | nil =>
    intro c _ _
    refine ⟨by simp, rfl, rfl, ?_⟩
    cases hd : c.default_config <;> simp [hd]
  | cons n ns ih =>
    intro c hnd hmem
    rw [List.nodup_cons] at hnd
    have hn : (dictLookup c.configs n).isSome = true := hmem n (List.mem_cons_self n ns)
    rw [List.foldl_cons, removeConfigsStep_eq c n hn]
    have hmem2 : ∀ m ∈ ns,
        (dictLookup (dictErase c.configs n) m).isSome = true := by
      intro m hm
      rw [dictLookup_erase_ne _ (fun he => hnd.1 (by rw [← he]; exact hm))]
      exact hmem m (List.mem_cons_of_mem n hm)
    obtain ⟨h1, h2, h3, h4⟩ :=
      ih { c with configs := dictErase c.configs n,
                  default_config :=
                    if c.default_config = some n then none
                    else c.default_config } hnd.2 hmem2
    refine ⟨?_, h2, h3, ?_⟩
    · rw [h1]
      show (c.configs.filter (fun kv => kv.1 != n)).filter (fun kv => decide (kv.1 ∉ ns))
          = c.configs.filter (fun kv => decide (kv.1 ∉ n :: ns))
      rw [List.filter_filter]
      apply List.filter_congr
      intro kv _
      by_cases e1 : kv.1 = n <;> by_cases e2 : kv.1 ∈ ns <;>
        simp [e1, e2, List.mem_cons]
    · rw [h4]
      cases hd : c.default_config with
      | none => simp
      | some d =>
        by_cases hdn : d = n
        · subst hdn
          rw [if_pos rfl]
          show (none : Option String) = if d ∈ d :: ns then none else some d
          rw [if_pos (List.mem_cons_self d ns)]
        · rw [if_neg (by simpa using hdn)]
          show (if d ∈ ns then none else some d : Option String)
              = if d ∈ n :: ns then none else some d
          by_cases hdm : d ∈ ns
          · rw [if_pos hdm, if_pos (List.mem_cons_of_mem n hdm)]
          · rw [if_neg hdm, if_neg (by simp [hdn, hdm])]

theorem set_default_if_just_one_config_singleton (c : Document) (k : String)
    (sc : SavedConfig) (h : c.configs = [(k, sc)]) :
    (set_default_if_just_one_config c).default_config = some k := by
  unfold set_default_if_just_one_config
  rw [h]
  rfl

theorem take_append_len {α : Type} (t : List α) (p : List α) (n : Nat) :
    (t ++ p).take (t.length + n) = t ++ p.take n := by
  induction t with
  | nil => simp
  | cons a t2 ih =>
    simp only [List.cons_append, List.length_cons]
    rw [show t2.length + 1 + n = (t2.length + n) + 1 from by omega]
    rw [List.take_succ_cons, ih]

theorem splitSchemeSep_eq : ∀ {l a rest : List Char},
    splitSchemeSep l = some (a, rest) → l = a ++ ':' :: '/' :: '/' :: rest := by
  intro l
  induction l with
  | nil => intro a rest h; exact absurd h (by simp [splitSchemeSep])
  | cons c t ih =>
    intro a rest h
    unfold splitSchemeSep at h
    by_cases hc : c = ':' ∧ t.take 2 = ['/', '/']
    · rw [if_pos hc, Option.some.injEq, Prod.mk.injEq] at h
      obtain ⟨ha, hr⟩ := h
      subst ha
      subst hr
      rw [hc.1]
      show ':' :: t = [] ++ ':' :: '/' :: '/' :: t.drop 2
      simp only [List.nil_append, List.cons.injEq, true_and]
      conv_lhs => rw [← List.take_append_drop 2 t]
      rw [hc.2]
      rfl
    · rw [if_neg hc] at h
      cases ho : splitSchemeSep t with
      | none =>
        rw [ho] at h
        exact absurd h (by simp)
      | some p =>
        rw [ho] at h
        simp only [Option.map_some', Option.some.injEq, Prod.mk.injEq] at h
        obtain ⟨ha, hr⟩ := h
        subst ha
        subst hr
        have ht := ih (show splitSchemeSep t = some (p.1, p.2) from ho)
        rw [List.cons_append, ← ht]

theorem urlSplit_append (l : List Char) : (urlSplit l).1 ++ (urlSplit l).2 = l := by
  unfold urlSplit
  cases ho : splitSchemeSep l with
  | none => simp
  | some pr =>
    obtain ⟨a, rest⟩ := pr
    rw [splitSchemeSep_eq ho]
    simp

theorem endsV1_append (t p : List Char) (hp : 3 ≤ p.length) :
    endsV1 (t ++ p) = endsV1 p := by
  unfold endsV1
  rw [List.reverse_append]
  have h3 : 3 ≤ p.reverse.length := by simpa using hp
  cases hr : p.reverse with
  | nil => rw [hr] at h3; simp at h3
  | cons c1 t1 =>
    cases t1 with
    | nil => rw [hr] at h3; simp at h3
    | cons c2 t2 =>
      cases t2 with
      | nil => rw [hr] at h3; simp at h3
      | cons c3 t3 => simp only [List.cons_append]

theorem endsV1_length {l : List Char} (h : endsV1 l = true) : 3 ≤ l.length := by
  unfold endsV1 at h
  rw [← List.length_reverse]
  cases hr : l.reverse with
  | nil => rw [hr] at h; simp at h
  | cons c1 t1 =>
    cases t1 with
    | nil => rw [hr] at h; simp at h
    | cons c2 t2 =>
      cases t2 with
      | nil => rw [hr] at h; simp at h
      | cons c3 t3 => simp

theorem rstripSlashL_no_trailing {l : List Char} {a : Char}
    (h : (rstripSlashL l).getLast? = some a) : (a == '/') = false := by
  unfold rstripSlashL at h
  rw [List.getLast?_eq_head?_reverse, List.reverse_reverse] at h
  exact @dropWhile_head_prop (fun x => x == '/') _ a h

theorem urlPathL_head_slash {l : List Char} {pr : List Char × List Char} {a : Char}
    (hs : splitSchemeSep l = some pr) (h : (urlPathL l).head? = some a) : a = '/' := by
  obtain ⟨sch, rest⟩ := pr
  unfold urlPathL urlSplit at h
  rw [hs] at h
  have hprop := @dropWhile_head_prop (fun x => x != '/') rest a h
  simpa using hprop

theorem endsV1_urlPath (l : List Char)
    (hnt : ∀ a, l.getLast? = some a → (a == '/') = false)
    (h0 : urlPathL l = [] → endsV1 l = false) :
    endsV1 (urlPathL l) = endsV1 l := by
  cases hs : splitSchemeSep l with
  | none =>
    unfold urlPathL urlSplit
    rw [hs]
  | some pr =>
    have hsplit : (urlSplit l).1 ++ (urlSplit l).2 = l := urlSplit_append l
    cases hp : urlPathL l with
    | nil =>
      rw [h0 hp]
      rfl
    | cons x xs =>
      have hx : x = '/' := urlPathL_head_slash hs (by rw [hp]; rfl)
      subst hx
      have hp2 : (urlSplit l).2 = '/' :: xs := hp
      cases xs with
      | nil =>
        exfalso
        have hl : l.getLast? = some '/' := by
          rw [← hsplit, hp2, List.getLast?_eq_head?_reverse, List.reverse_append]
          rfl
        simpa using hnt '/' hl
      | cons y ys =>
        cases ys with
        | nil =>
          have hr : endsV1 l = false := by
            unfold endsV1
            rw [← hsplit, hp2, List.reverse_append]
            show (match y :: '/' :: ((urlSplit l).1).reverse with
                  | c1 :: c2 :: c3 :: _ => c1 == '1' && c2 == 'v' && c3 == '/'
                  | _ => false) = false
            cases (urlSplit l).1.reverse with
            | nil => rfl
            | cons z zs => simp
          rw [hr]
          rfl
        | cons z zs =>
          conv_rhs => rw [← hsplit, hp2]
          rw [endsV1_append]
          simp

/-- The base-URL normalization of the source agrees with the whole-string
description in the specification, provided the URL is not the pathological
shape whose netloc itself ends in `v1` with an empty path (e.g.
`http://v1`), where `urlparse`'s path is empty and the source leaves the
URL alone. -/
theorem normalize_base_url_spec (s : String)
    (h0 : urlPathL (rstripSlashL s.data) = [] →
      endsV1 (rstripSlashL s.data) = false) :
    normalize_base_url s = normalizeSpec s := by
  simp only [normalize_base_url, normalizeSpec]
  have hnt : ∀ a, (rstripSlashL s.data).getLast? = some a → (a == '/') = false :=
    fun a ha => rstripSlashL_no_trailing ha
  have hev : endsV1 (urlPathL (rstripSlashL s.data)) = endsV1 (rstripSlashL s.data) :=
    endsV1_urlPath _ hnt h0
  by_cases he : endsV1 ((urlSplit (rstripSlashL s.data)).2) = true
  · rw [if_pos he,
      if_pos (show endsV1 (rstripSlashL s.data) = true from by rw [← hev]; exact he)]
    have hsplit := urlSplit_append (rstripSlashL s.data)
    have h3 : 3 ≤ ((urlSplit (rstripSlashL s.data)).2).length := endsV1_length he
    congr 1
    congr 1
    conv_rhs => rw [← hsplit]
    rw [show ((urlSplit (rstripSlashL s.data)).1 ++ (urlSplit (rstripSlashL s.data)).2).length - 3
        = (urlSplit (rstripSlashL s.data)).1.length
          + ((urlSplit (rstripSlashL s.data)).2.length - 3) from by
      rw [List.length_append]
      have h3' : 3 ≤ (urlSplit (rstripSlashL s.data)).2.length := h3
      omega]
    rw [take_append_len]
  · rw [if_neg he,
      if_neg (show ¬ endsV1 (rstripSlashL s.data) = true from by rw [← hev]; exact he)]

theorem urljoin_v1models (nb : String) :
    urljoin (nb ++ "/") (lstripSlash "/v1/models") = nb ++ "/v1/models" := by
  unfold urljoin
  rw [String.append_assoc]
  rw [show ("/" : String) ++ lstripSlash "/v1/models" = "/v1/models" from by decide]

theorem urljoin_models (nb : String) :
    urljoin (nb ++ "/") (lstripSlash "/models") = nb ++ "/models" := by
  unfold urljoin
  rw [String.append_assoc]
  rw [show ("/" : String) ++ lstripSlash "/models" = "/models" from by decide]

theorem tryEndpoint_eq (w : HttpWorld) (u : String) :
    tryEndpoint w u = if status200 (w u none) then some u else none := by
  unfold tryEndpoint status200
  cases hw : w u none with
  | none => rfl
  | some r => rfl

/-! ## Claim theorems -/

/-- C10: loading yields the empty-defaults document without raising when the
file is absent, unreadable (`IOError`) or decodable-but-invalid JSON, and a
readable, parsing file is returned as parsed — but on a readable file whose
bytes are not valid UTF-8, `json.load` raises `UnicodeDecodeError`, which
`contextlib.suppress(json.JSONDecodeError, IOError)` does not catch, so the
error propagates, contradicting the claim that a parse failure never
propagates. -/
theorem c10_load_config_unicode_error :
    load_config_file .undecodable = .error ()
    ∧ load_config_file .absent = .ok default_document
    ∧ load_config_file .unreadable = .ok default_document
    ∧ load_config_file .invalidJson = .ok default_document
    ∧ default_document =
        JVal.obj [("providers", .obj []),
                  ("models", .obj [("haiku", .null), ("sonnet", .null), ("opus", .null)]),
                  ("configs", .obj []),
                  ("default_config", .null)]
    ∧ (∀ j, load_config_file (.content j) = .ok j) :=
  ⟨rfl, rfl, rfl, rfl, rfl, fun _ => rfl⟩

/-- C7: `load_config_by_name` returns the empty result when the name is
absent from `configs` or when the named config's provider is not a key of
`providers`; otherwise the result takes `base_url`, `api_key` and
`api_key_type` from the provider entry and `models` from the saved config. -/
theorem c7_load_config_by_name (c : Document) (name : String) :
    (dictLookup c.configs name = none → load_config_by_name c name = none)
    ∧ (∀ sc, dictLookup c.configs name = some sc →
        dictLookup c.providers sc.provider = none →
        load_config_by_name c name = none)
    ∧ (∀ sc p, dictLookup c.configs name = some sc →
        dictLookup c.providers sc.provider = some p →
        load_config_by_name c name =
          some ⟨p.base_url, sc.models, p.api_key, p.api_key_type⟩) := by
  refine ⟨fun h => ?_, fun sc h hp => ?_, fun sc p h hp => ?_⟩
  · simp [load_config_by_name, h]
  · simp [load_config_by_name, h, hp]
  · simp [load_config_by_name, h, hp]

/-- C7 witness: on a saved config whose provider entry was removed, the load
returns the empty result. -/
theorem c7_witness :
    dictLookup docDangling.configs "c1" = some ⟨"gone", selX⟩
    ∧ dictLookup docDangling.providers "gone" = none
    ∧ load_config_by_name docDangling "c1" = none :=
  ⟨rfl, rfl, (c7_load_config_by_name docDangling "c1").2.1 ⟨"gone", selX⟩ rfl rfl⟩

/-- C6: `check_and_update_default_config` nulls a dangling default pointer
and returns false; leaves a valid pointer untouched and returns true;
returns false leaving the document unchanged when no default is set.  The
result always satisfies invariant I2 and running the operation again changes
nothing. -/
theorem c6_check_and_update_default (c : Document) :
    check_and_update_default_config c =
      (match c.default_config with
       | none => (false, c)
       | some d =>
         if (dictLookup c.configs d).isSome then (true, c)
         else (false, { c with default_config := none }))
    ∧ defaultPointerValid (check_and_update_default_config c).2 = true
    ∧ check_and_update_default_config (check_and_update_default_config c).2
        = check_and_update_default_config c := by
  refine ⟨?_, ?_, ?_⟩
  · unfold check_and_update_default_config
    match h : c.default_config with
    | none => simp [h]
    | some d =>
      by_cases hl : (dictLookup c.configs d).isSome
      · simp [h, hl]
      · simp [h, hl]
  · unfold check_and_update_default_config defaultPointerValid
    match h : c.default_config with
    | none => simp [h]
    | some d =>
      by_cases hl : (dictLookup c.configs d).isSome
      · simp [h, hl]
      · simp [h, hl]
  · unfold check_and_update_default_config
    match h : c.default_config with
    | none => simp [h]
    | some d =>
      by_cases hl : (dictLookup c.configs d).isSome
      · simp [h, hl]
      · simp [h, hl]

/-- C3: when removing an existing provider leaves exactly one saved config,
the default pointer is set to that config's key by the trailing
`set_default_if_just_one_config` call. -/
theorem c3_remove_provider_single_remaining (c : Document) (P k : String)
    (sc : SavedConfig)
    (hp : (dictLookup c.providers P).isSome = true)
    (h1 : (remove_provider c P).configs = [(k, sc)]) :
    (remove_provider c P).default_config = some k := by
  unfold remove_provider at h1 ⊢
  rw [if_pos hp] at h1 ⊢
  rw [set_default_if_just_one_config_configs] at h1
  exact set_default_if_just_one_config_singleton _ k sc h1

/-- C3 witness: removing provider `p` from `doc2` leaves only config `b`,
and the default pointer becomes `b` even though it pointed at the deleted
config `a` before. -/
theorem c3_witness :
    (dictLookup doc2.providers "p").isSome = true
    ∧ (remove_provider doc2 "p").configs = [("b", ⟨"q", selX⟩)]
    ∧ (remove_provider doc2 "p").default_config = some "b" :=
  ⟨rfl, by decide,
   c3_remove_provider_single_remaining doc2 "p" "b" ⟨"q", selX⟩ rfl (by decide)⟩

/-- C1 counterexample: against `wEmptyData` the discovery is reachable and
lists zero models (`list_models` returns `[]` without an exception), yet
`add_provider` returns `true` and inserts the provider, so the provider map
changes — the claimed `false`-and-unchanged behaviour does not hold. -/
theorem c1_counterexample :
    list_models wEmptyData "http://h" = .ok []
    ∧ (add_provider wEmptyData emptyDoc "p" "http://h" "" "none").1 = true
    ∧ (add_provider wEmptyData emptyDoc "p" "http://h" "" "none").2.providers
        ≠ emptyDoc.providers :=
  ⟨rfl, rfl, by decide⟩

/-- C1 amended: when discovery yields an empty model list and raises no
exception (`list_models` returns `ok []`), `add_provider` returns `true` and
inserts/overwrites the provider entry with an empty model list, the rest of
the document unchanged; it returns `false` without mutating only when an
exception is raised. -/
theorem c1_add_provider_empty_models (w : HttpWorld) (c : Document)
    (name base_url api_key api_key_type : String)
    (h : list_models w base_url = .ok []) :
    add_provider w c name base_url api_key api_key_type =
      (true, { c with providers :=
                (dictInsert c.providers name ⟨base_url, [], api_key, api_key_type⟩) }) := by
  unfold add_provider
  by_cases hj : jtruthy (fetch_models w base_url)
  · simp [hj, h]
  · simp [hj]

/-- C1 witness: with an unreachable network the model list is empty and
`add_provider` still inserts the provider and returns `true`. -/
theorem c1_witness :
    list_models wNoNet "http://x" = .ok []
    ∧ add_provider wNoNet emptyDoc "p" "http://x" "k" "direct" =
        (true, { emptyDoc with providers :=
                  (dictInsert emptyDoc.providers "p" ⟨"http://x", [], "k", "direct"⟩) }) :=
  ⟨rfl, c1_add_provider_empty_models wNoNet emptyDoc "p" "http://x" "k" "direct" rfl⟩

/-- C4: the source `fetch_models` sends no `Authorization` header
(and accepts no API key, though `tui.py` passes one): against `wBearer`,
whose model listing depends on the bearer credential, it fetches the
unauthenticated (empty) document, while the specified behaviour
(`fetch_models_spec`, sending `Bearer secret`) fetches the authenticated
one, and the two differ. -/
theorem c4_no_bearer_credential :
    fetch_models wBearer "http://api.test" = some (.obj [("data", .arr [])])
    ∧ fetch_models_spec wBearer "http://api.test" "secret"
        = some (.obj [("data", .arr [.obj [("id", .str "m1")]])])
    ∧ (JVal.obj [("data", .arr [])])
        ≠ .obj [("data", .arr [.obj [("id", .str "m1")]])] :=
  ⟨rfl, rfl, by simp⟩

/-- C2 counterexample: in `doc2` the default names config `a`, which
references provider `p`; removing `p` deletes exactly config `a`, but the
default pointer ends up as `b` (the one remaining config), not null as the
claim states. -/
theorem c2_counterexample :
    doc2.default_config = some "a"
    ∧ dictLookup doc2.configs "a" = some ⟨"p", selX⟩
    ∧ get_configs_for_provider doc2 "p" = ["a"]
    ∧ (remove_provider doc2 "p").configs = [("b", ⟨"q", selX⟩)]
    ∧ (remove_provider doc2 "p").providers = [("q", provX)]
    ∧ (remove_provider doc2 "p").default_config = some "b"
    ∧ (remove_provider doc2 "p").default_config ≠ none :=
  ⟨rfl, rfl, rfl, by decide, by decide, by decide, by decide⟩

/-- C2 amended: removing an existing provider `P` deletes exactly the
configs referencing `P` and the provider entry; a default pointing at a
deleted config is reset during the cascade, and afterwards, if exactly one
config remains, the default is re-pointed at it. -/
theorem c2_remove_provider (c : Document) (P : String)
    (hp : (dictLookup c.providers P).isSome = true)
    (hnd : (c.configs.map Prod.fst).Nodup) :
    (remove_provider c P).configs
        = c.configs.filter (fun kv => !(kv.2.provider == P))
    ∧ (remove_provider c P).providers = dictErase c.providers P
    ∧ (remove_provider c P).models = c.models
    ∧ (remove_provider c P).default_config =
        (if (remove_provider c P).configs.length = 1
         then ((remove_provider c P).configs.head?).map Prod.fst
         else match c.default_config with
              | some d => if d ∈ get_configs_for_provider c P then none else some d
              | none => none) := by
  have htr_nodup : (get_configs_for_provider c P).Nodup := by
    unfold get_configs_for_provider
    exact ((List.filter_sublist _).map Prod.fst).nodup hnd
  have htr_mem : ∀ n ∈ get_configs_for_provider c P,
      (dictLookup c.configs n).isSome = true := by
    intro n hn
    unfold get_configs_for_provider at hn
    rcases List.mem_map.mp hn with ⟨kv, hkv, hfst⟩
    have hc : kv ∈ c.configs := (List.mem_filter.mp hkv).1
    exact dictLookup_isSome_of_mem_keys (hfst ▸ List.mem_map_of_mem Prod.fst hc)
  obtain ⟨h1, h2, h3, h4⟩ :=
    foldl_removeConfigs (get_configs_for_provider c P) c htr_nodup htr_mem
  have hfilters : c.configs.filter (fun kv => decide (kv.1 ∉ get_configs_for_provider c P))
      = c.configs.filter (fun kv => !(kv.2.provider == P)) := by
    apply List.filter_congr
    intro kv hkv
    by_cases hprov : kv.2.provider = P
    · have hm : kv.1 ∈ get_configs_for_provider c P := by
        unfold get_configs_for_provider
        exact List.mem_map_of_mem Prod.fst (List.mem_filter.mpr ⟨hkv, by simp [hprov]⟩)
      simp [hm, hprov]
    · have hm : kv.1 ∉ get_configs_for_provider c P := by
        intro hmem
        unfold get_configs_for_provider at hmem
        rcases List.mem_map.mp hmem with ⟨kv2, hkv2, hfst⟩
        have hkv2c : kv2 ∈ c.configs := (List.mem_filter.mp hkv2).1
        have hkv2p : kv2.2.provider = P := by
          simpa using (List.mem_filter.mp hkv2).2
        have heq : kv = kv2 := nodup_keys_unique hnd hkv hkv2c hfst.symm
        exact hprov (by rw [heq]; exact hkv2p)
      simp [hm, hprov]
  have hre : remove_provider c P = set_default_if_just_one_config
      { (get_configs_for_provider c P).foldl removeConfigsStep c with
        providers :=
          dictErase ((get_configs_for_provider c P).foldl removeConfigsStep c).providers P } := by
    unfold remove_provider
    rw [if_pos hp]
  refine ⟨?_, ?_, ?_, ?_⟩
  · rw [hre, set_default_if_just_one_config_configs]
    show ((get_configs_for_provider c P).foldl removeConfigsStep c).configs = _
    rw [h1, hfilters]
  · rw [hre, set_default_if_just_one_config_providers]
    show dictErase ((get_configs_for_provider c P).foldl removeConfigsStep c).providers P = _
    rw [h2]
  · rw [hre, set_default_if_just_one_config_models]
    show ((get_configs_for_provider c P).foldl removeConfigsStep c).models = _
    rw [h3]
  · rw [hre, set_default_if_just_one_config_default, set_default_if_just_one_config_configs]
    show (if ((get_configs_for_provider c P).foldl removeConfigsStep c).configs.length = 1
          then ((get_configs_for_provider c P).foldl removeConfigsStep c).configs.head?.map Prod.fst
          else ((get_configs_for_provider c P).foldl removeConfigsStep c).default_config)
        = (if ((get_configs_for_provider c P).foldl removeConfigsStep c).configs.length = 1
           then ((get_configs_for_provider c P).foldl removeConfigsStep c).configs.head?.map Prod.fst
           else match c.default_config with
                | some d => if d ∈ get_configs_for_provider c P then none else some d
                | none => none)
    by_cases hlen : ((get_configs_for_provider c P).foldl removeConfigsStep c).configs.length = 1
    · rw [if_pos hlen, if_pos hlen]
    · rw [if_neg hlen, if_neg hlen, h4]

/-- C2 witness: applying the amended removal description to `doc2` and
provider `p` (present, nodup keys): config `a` is deleted, provider `p`
removed, and the default ends at the singleton survivor `b`. -/
theorem c2_witness :
    (dictLookup doc2.providers "p").isSome = true
    ∧ (doc2.configs.map Prod.fst).Nodup
    ∧ ((remove_provider doc2 "p").configs
          = doc2.configs.filter (fun kv => !(kv.2.provider == "p"))
       ∧ (remove_provider doc2 "p").providers = dictErase doc2.providers "p"
       ∧ (remove_provider doc2 "p").models = doc2.models
       ∧ (remove_provider doc2 "p").default_config =
          (if (remove_provider doc2 "p").configs.length = 1
           then ((remove_provider doc2 "p").configs.head?).map Prod.fst
           else match doc2.default_config with
                | some d => if d ∈ get_configs_for_provider doc2 "p" then none else some d
                | none => none)) :=
  ⟨rfl, by decide, c2_remove_provider doc2 "p" rfl (by decide)⟩

/-- C8: the source normalizer equals the reference normalizer that collapses
dash runs before trimming (the source trims before collapsing — the two
orders agree on every input), and the three cited examples hold. -/
theorem c8_normalize_matches_reference :
    (∀ s, normalize_config_name s = normalizeRef s)
    ∧ normalize_config_name "My Config_Name 123!" = "my-config-name-123"
    ∧ normalize_config_name "---" = ""
    ∧ normalize_config_name "@#$%" = "" := by
  refine ⟨fun s => ?_, by decide, by decide, by decide⟩
  unfold normalize_config_name normalizeRef
  rw [collapse_strip_comm]

/-- C5 amended: `discover_models_endpoint` first normalizes the base URL
(per the specification's whole-string description, away from the
pathological `http://v1`-like shape excluded by the hypothesis), probes
exactly `{base}/v1/models` then `{base}/models` in that order, returns the
first candidate whose response has status exactly 200 (any non-200 status or
transport error treated as that path failing), and not-found if both fail. -/
theorem c5_discover_two_paths (w : HttpWorld) (base_url : String)
    (h0 : urlPathL (rstripSlashL base_url.data) = [] →
      endsV1 (rstripSlashL base_url.data) = false) :
    normalize_base_url base_url = normalizeSpec base_url
    ∧ discover_models_endpoint w base_url =
        (if status200 (w (normalize_base_url base_url ++ "/v1/models") none)
         then some (normalize_base_url base_url ++ "/v1/models")
         else if status200 (w (normalize_base_url base_url ++ "/models") none)
         then some (normalize_base_url base_url ++ "/models")
         else none)
    ∧ (∀ u, discover_models_endpoint w base_url = some u →
        u = normalize_base_url base_url ++ "/v1/models"
        ∨ u = normalize_base_url base_url ++ "/models") := by
  have hd : discover_models_endpoint w base_url =
      (if status200 (w (normalize_base_url base_url ++ "/v1/models") none)
       then some (normalize_base_url base_url ++ "/v1/models")
       else if status200 (w (normalize_base_url base_url ++ "/models") none)
       then some (normalize_base_url base_url ++ "/models")
       else none) := by
    show (match tryEndpoint w (urljoin (normalize_base_url base_url ++ "/")
            (lstripSlash "/v1/models")) with
          | some u => some u
          | none => tryEndpoint w (urljoin (normalize_base_url base_url ++ "/")
              (lstripSlash "/models"))) = _
    rw [urljoin_v1models, urljoin_models, tryEndpoint_eq, tryEndpoint_eq]
    by_cases h1 : status200 (w (normalize_base_url base_url ++ "/v1/models") none) = true
    · rw [if_pos h1, if_pos h1]
    · rw [if_neg h1, if_neg h1]
  refine ⟨normalize_base_url_spec base_url h0, hd, ?_⟩
  intro u hu
  rw [hd] at hu
  by_cases h1 : status200 (w (normalize_base_url base_url ++ "/v1/models") none) = true
  · rw [if_pos h1] at hu
    exact Or.inl (Option.some.inj hu).symm
  · rw [if_neg h1] at hu
    by_cases h2 : status200 (w (normalize_base_url base_url ++ "/models") none) = true
    · rw [if_pos h2] at hu
      exact Or.inr (Option.some.inj hu).symm
    · rw [if_neg h2] at hu
      exact absurd hu (by simp)

/-- C5 witness: the amended discovery description instantiated at `w204`
and base URL `http://h`. -/
theorem c5_witness :
    normalize_base_url "http://h" = normalizeSpec "http://h"
    ∧ discover_models_endpoint w204 "http://h" =
        (if status200 (w204 (normalize_base_url "http://h" ++ "/v1/models") none)
         then some (normalize_base_url "http://h" ++ "/v1/models")
         else if status200 (w204 (normalize_base_url "http://h" ++ "/models") none)
         then some (normalize_base_url "http://h" ++ "/models")
         else none) :=
  ⟨(c5_discover_two_paths w204 "http://h" (fun _ => by decide)).1,
   (c5_discover_two_paths w204 "http://h" (fun _ => by decide)).2.1⟩

/-- C9: the normalizer is idempotent, and its output consists only of
characters in `[a-z0-9-]` with no doubled dash and no leading or trailing
dash (so it is empty or matches the stated pattern). -/
theorem c9_normalize_idempotent_shape (s : String) :
    normalize_config_name (normalize_config_name s) = normalize_config_name s
    ∧ (normalize_config_name s).data.all allowedChar = true
    ∧ noDoubleDash (normalize_config_name s).data = true
    ∧ (∀ a, (normalize_config_name s).data.head? = some a → (a == '-') = false)
    ∧ (∀ a, (normalize_config_name s).data.getLast? = some a → (a == '-') = false) := by
  have hdata : (normalize_config_name s).data =
      collapseDashes (stripDashes ((lowerAndReplace s.data).filter allowedChar)) := rfl
  have hall : ∀ c ∈ (normalize_config_name s).data, allowedChar c = true := by
    intro c hc
    rw [hdata] at hc
    exact List.of_mem_filter (stripDashes_mem (mem_collapseDashes hc))
  have hhead : ∀ a, (normalize_config_name s).data.head? = some a →
      (a == '-') = false := by
    intro a ha
    rw [hdata, collapseDashes_head] at ha
    exact stripDashes_head_prop ha
  have hlast : ∀ a, (normalize_config_name s).data.getLast? = some a →
      (a == '-') = false := by
    intro a ha
    rw [hdata, collapseDashes_getLast] at ha
    exact stripDashes_getLast_prop ha
  have hnd : noDoubleDash (normalize_config_name s).data = true := by
    rw [hdata]
    exact noDoubleDash_collapse _
  refine ⟨?_, List.all_eq_true.mpr hall, hnd, hhead, hlast⟩
  have hlr : lowerAndReplace (normalize_config_name s).data =
      (normalize_config_name s).data := by
    unfold lowerAndReplace
    rw [mapIdOfFixed (fun c hc => allowed_toLower (hall c hc))]
    exact mapIdOfFixed (fun c hc => allowed_replace (hall c hc))
  have hfl : ((normalize_config_name s).data).filter allowedChar =
      (normalize_config_name s).data := List.filter_eq_self.mpr hall
  have hstr : stripDashes (normalize_config_name s).data =
      (normalize_config_name s).data := by
    unfold stripDashes
    rw [dropLead_eq_self hhead]
    exact dropTrail_eq_self hlast
  have hcol : collapseDashes (normalize_config_name s).data =
      (normalize_config_name s).data := collapse_eq_self_of_noDoubleDash hnd
  have hout : normalize_config_name (normalize_config_name s) =
      ⟨collapseDashes (stripDashes (((lowerAndReplace (normalize_config_name s).data)).filter allowedChar))⟩ := rfl
  rw [hout, hlr, hfl, hstr, hcol]

/-- C5 counterexample: `w204` answers the first candidate path with the 2xx
success status 204, yet `discover_models_endpoint` reports not-found — the
source accepts exactly status 200, not every success status as claimed. -/
theorem c5_counterexample :
    discover_models_endpoint w204 "http://h" = none
    ∧ w204 "http://h/v1/models" none = some ⟨204, some (.obj [])⟩
    ∧ 200 ≤ 204 ∧ 204 < 300 :=
  ⟨by decide, rfl, by decide, by decide⟩

end CCI
